import Mathlib

/-!
# Verification of the `pub-sub` broadcast channel (src/lib.rs)

Shallow embedding of the crate's single source file.  The Rust code keeps a
`HashMap<Uuid, mpsc::Sender<T>>` (the Registry) behind a mutex, shared by every
`Sender` and `Receiver` handle of one channel:

* `new` creates the map with one fresh entry and returns the initial
  `(Sender, Receiver)` pair;
* `Sender::send` locks the map, iterates the entries and pushes a clone of the
  value into each `mpsc` queue, returning the first push error immediately;
* `Receiver::clone` mints a fresh id, creates a fresh `mpsc` channel and
  inserts its producer end under the fresh id;
* `Receiver::drop` removes its own id from the map (and, as the handle's field
  is destroyed, the queue's consumer end disappears);
* `Receiver::recv` / `try_recv` / `iter` act on the handle's own consumer end.

The embedding represents one channel as the contents of that shared map plus
the per-subscriber queue states.  Since the registry entry for an id *is* the
producer end of that subscriber's queue, we store every queue ever created in
an association list keyed by subscriber id, with a `producerAlive` flag
(true exactly when the registry still holds the entry) and a `consumerAlive`
flag (true exactly when the owning `Receiver` handle is still alive).
UUID minting is modelled by a `nextId` counter: the code's freshly minted
v4 UUIDs are assumed globally unique, which the counter realises.
All operations are serialized by the registry mutex, so each one is a pure
function on the channel state.
-/

/-- State of one `std::sync::mpsc` queue, as seen through the pub-sub crate:
the FIFO buffer of pending values (oldest first), whether the producer end
(the registry entry) still exists, and whether the consumer end (the
`Receiver` handle's field) still exists. -/
structure MpscQueue (T : Type) where
  buf : List T
  producerAlive : Bool
  consumerAlive : Bool
  deriving Repr, DecidableEq

/-- The whole shared state of one pub-sub channel: the fresh-id counter and
the association list of every subscriber queue ever created, keyed by
subscriber id.  The Registry's key set is the set of ids whose
`producerAlive` flag is true. -/
structure ChannelState (T : Type) where
  nextId : Nat
  queues : List (Nat × MpscQueue T)
  deriving Repr, DecidableEq

/-- The key set of the Registry: ids whose producer end is still held by the
map. -/
def ChannelState.registryKeys {T : Type} (st : ChannelState T) : List Nat :=
  (st.queues.filter (fun p => p.2.producerAlive)).map Prod.fst

/-- The ids of the currently-live `Receiver` handles of this channel. -/
def ChannelState.liveReceivers {T : Type} (st : ChannelState T) : List Nat :=
  (st.queues.filter (fun p => p.2.consumerAlive)).map Prod.fst

/-- The pending buffer of subscriber `id`'s queue (empty if no such queue). -/
def ChannelState.bufOf {T : Type} (st : ChannelState T) (id : Nat) : List T :=
  match st.queues.lookup id with
  | some q => q.buf
  | none => []

/-- Behaviour of `mpsc::Sender::send`: it succeeds and appends to the buffer when the consumer
end still exists, otherwise fails returning the value inside `SendError`. -/
def MpscQueue.push {T : Type} (q : MpscQueue T) (v : T) : Option (MpscQueue T) :=
  if q.consumerAlive then some { q with buf := q.buf ++ [v] } else none

/-- The broadcast loop of `Sender::send` (lib.rs lines 98-109): iterate the
registry entries, push a clone of the value into each queue, and on the first
failing push return `SendError` carrying the value, leaving the remaining
entries unvisited.  Entries whose producer end is gone are not in the map and
are therefore not visited.  Returns the updated queue list and `some v` when
the send failed with `SendError(v)`, `none` when it returned `Ok(())`. -/
def broadcast {T : Type} : List (Nat × MpscQueue T) → T →
    List (Nat × MpscQueue T) × Option T
  | [], _ => ([], none)
  | (i, q) :: rest, v =>
    if q.producerAlive then
      match q.push v with
      | some q' =>
        let r := broadcast rest v
        ((i, q') :: r.1, r.2)
      | none => ((i, q) :: rest, some v)
    else
      let r := broadcast rest v
      ((i, q) :: r.1, r.2)

/-- Embedding of `Sender::send` (lib.rs lines 98-109): lock the registry and broadcast.
The second component is `none` for `Ok(())` and `some v` for
`Err(SendError(v))`. -/
def Sender.send {T : Type} (st : ChannelState T) (v : T) :
    ChannelState T × Option T :=
  let r := broadcast st.queues v
  ({ st with queues := r.1 }, r.2)

/-- Embedding of `Sender::clone` (derived `Clone`, lib.rs line 84): copies the `Arc`
reference to the registry; the shared channel state is untouched. -/
def Sender.clone {T : Type} (st : ChannelState T) : ChannelState T := st

/-- Embedding of `Receiver::clone` (lib.rs lines 130-147): mint a fresh id, create a fresh
`mpsc` channel, insert its producer end into the registry under the fresh id,
and hand the consumer end to the new `Receiver`.  Returns the updated channel
state and the new subscriber's id. -/
def Receiver.clone {T : Type} (st : ChannelState T) : ChannelState T × Nat :=
  ({ nextId := st.nextId + 1,
     queues := st.queues ++ [(st.nextId, ⟨[], true, true⟩)] }, st.nextId)

/-- Embedding of `Receiver::drop` (lib.rs lines 149-155): lock the registry and remove this
receiver's id (dropping the producer end); the handle's own consumer end is
destroyed with the handle. -/
def Receiver.drop {T : Type} (st : ChannelState T) (id : Nat) : ChannelState T :=
  { st with
    queues := st.queues.map (fun p =>
      if p.1 = id then (p.1, { p.2 with producerAlive := false,
                                        consumerAlive := false })
      else p) }

/-- Error type `mpsc::TryRecvError`. -/
inductive TryRecvError where
  | Empty
  | Disconnected
  deriving Repr, DecidableEq

/-- Behaviour of `mpsc::Receiver::try_recv`, never blocking: a buffered value is returned
even after the producer end is gone; on an empty buffer the error tells the
two cases apart. -/
def MpscQueue.try_recv {T : Type} (q : MpscQueue T) :
    Except TryRecvError T × MpscQueue T :=
  match q.buf with
  | v :: rest => (Except.ok v, { q with buf := rest })
  | [] =>
    if q.producerAlive then (Except.error TryRecvError.Empty, q)
    else (Except.error TryRecvError.Disconnected, q)

/-- Embedding of `Receiver::try_recv` (lib.rs lines 119-121): delegate to the handle's own
consumer end, identified by the receiver's id. -/
def Receiver.try_recv {T : Type} (st : ChannelState T) (id : Nat) :
    Except TryRecvError T × ChannelState T :=
  match st.queues.lookup id with
  | some q =>
    let r := q.try_recv
    (r.1, { st with queues := st.queues.map (fun p =>
        if p.1 = id then (p.1, r.2) else p) })
  | none => (Except.error TryRecvError.Disconnected, st)

/-- Behaviour of `mpsc::Receiver::recv` through the pub-sub `Receiver::recv`
(lib.rs lines 114-116): returns the oldest buffered value, a
`RecvError` when the buffer is empty and the producer end is gone, and blocks
(`none`) when the buffer is empty but the producer end is still alive. -/
def MpscQueue.recv {T : Type} (q : MpscQueue T) : Option (Option T × MpscQueue T) :=
  match q.buf with
  | v :: rest => some (some v, { q with buf := rest })
  | [] =>
    if q.producerAlive then none
    else some (none, q)

/-- Embedding of `new` (lib.rs lines 158-174): fresh map holding one fresh entry whose
producer end belongs to the initial receiver's queue.  Returns the channel
state and the initial receiver's id (the sender handle carries no state of
its own). -/
def new {T : Type} : ChannelState T × Nat :=
  ({ nextId := 1, queues := [(0, ⟨[], true, true⟩)] }, 0)

/-- Sequence of `send` calls (the registry mutex serializes them; the list
order is the order in which the calls acquired the lock).  Failed sends also
leave their partial deliveries in place, exactly as the code does. -/
def sendAll {T : Type} (st : ChannelState T) (vs : List T) : ChannelState T :=
  vs.foldl (fun s v => (Sender.send s v).1) st

/-- Draining observation: the values a receiver obtains by calling `try_recv`
`n` times, stopping at the first error. -/
def drainN {T : Type} : Nat → MpscQueue T → List T
  | 0, _ => []
  | n + 1, q =>
    match q.try_recv with
    | (Except.ok v, q') => v :: drainN n q'
    | (Except.error _, _) => []

/-! ## Helper notions and lemmas -/

/-- Effect of one successful broadcast on one queue: registered queues get the
value appended, removed ones are untouched. -/
def deliver {T : Type} (v : T) (q : MpscQueue T) : MpscQueue T :=
  if q.producerAlive then { q with buf := q.buf ++ [v] } else q

/-- Effect of a sequence of successful broadcasts on one queue. -/
def deliverMany {T : Type} : List T → MpscQueue T → MpscQueue T
  | [], q => q
  | v :: vs, q => deliverMany vs (deliver v q)

/-- A channel state where every registered queue still has its consumer end:
the states reachable without the narrow mid-destruction race. -/
def Consistent {T : Type} (st : ChannelState T) : Prop :=
  ∀ p ∈ st.queues, p.2.producerAlive = true → p.2.consumerAlive = true

theorem deliver_producerAlive {T : Type} (v : T) (q : MpscQueue T) :
    (deliver v q).producerAlive = q.producerAlive := by
  unfold deliver; split <;> rfl

theorem deliver_consumerAlive {T : Type} (v : T) (q : MpscQueue T) :
    (deliver v q).consumerAlive = q.consumerAlive := by
  unfold deliver; split <;> rfl

theorem deliverMany_true {T : Type} (vs : List T) (l : List T) (c : Bool) :
    deliverMany vs ⟨l, true, c⟩ = ⟨l ++ vs, true, c⟩ := by
  induction vs generalizing l with
  | nil => simp [deliverMany]
  | cons v vs ih =>
    have hd : deliver v (⟨l, true, c⟩ : MpscQueue T) = ⟨l ++ [v], true, c⟩ := rfl
    rw [deliverMany, hd, ih, List.append_assoc]
    rfl

theorem deliver_false {T : Type} (v : T) (q : MpscQueue T)
    (h : q.producerAlive = false) : deliver v q = q := by
  simp [deliver, h]

theorem deliverMany_false {T : Type} (vs : List T) (q : MpscQueue T)
    (h : q.producerAlive = false) : deliverMany vs q = q := by
  induction vs with
  | nil => rfl
  | cons v vs ih => simp [deliverMany, deliver_false _ _ h, ih]

/-- When every registered queue's consumer end is alive, the broadcast loop
visits every registry entry, appends the value to each registered queue, and
succeeds. -/
theorem broadcast_eq_of_consistent {T : Type} (entries : List (Nat × MpscQueue T))
    (v : T) (h : ∀ p ∈ entries, p.2.producerAlive = true → p.2.consumerAlive = true) :
    broadcast entries v = (entries.map (fun p => (p.1, deliver v p.2)), none) := by
  induction entries with
  | nil => rfl
  | cons p rest ih =>
    obtain ⟨i, q⟩ := p
    by_cases hp : q.producerAlive
    · have hc : q.consumerAlive = true := h (i, q) (by simp) hp
      simp [broadcast, hp, MpscQueue.push, hc, deliver,
        ih (fun p hm => h p (List.mem_cons_of_mem _ hm))]
    · simp [broadcast, hp, deliver,
        ih (fun p hm => h p (List.mem_cons_of_mem _ hm))]

theorem Sender.send_eq_of_consistent {T : Type} (st : ChannelState T) (v : T)
    (h : Consistent st) :
    Sender.send st v =
      ({ st with queues := st.queues.map (fun p => (p.1, deliver v p.2)) }, none) := by
  simp [Sender.send, broadcast_eq_of_consistent st.queues v h]

theorem Consistent.send {T : Type} {st : ChannelState T} (h : Consistent st)
    (v : T) : Consistent (Sender.send st v).1 := by
  rw [Sender.send_eq_of_consistent st v h]
  intro p hm
  simp only [List.mem_map] at hm
  obtain ⟨q, hq, rfl⟩ := hm
  simpa [deliver_producerAlive, deliver_consumerAlive] using h q hq

/-- A sequence of sends on a consistent state appends the value sequence to
every registered queue and touches nothing else. -/
theorem sendAll_queues {T : Type} (vs : List T) (st : ChannelState T)
    (h : Consistent st) :
    (sendAll st vs).queues =
      st.queues.map (fun p => (p.1, deliverMany vs p.2)) := by
  induction vs generalizing st with
  | nil =>
    simp [sendAll, deliverMany]
  | cons v vs ih =>
    have h1 := Sender.send_eq_of_consistent st v h
    have h2 : sendAll st (v :: vs) = sendAll (Sender.send st v).1 vs := rfl
    rw [h2, ih _ (h.send v), h1]
    simp [List.map_map, Function.comp, deliverMany]

theorem ChannelState.ext' {T : Type} {a b : ChannelState T}
    (h1 : a.nextId = b.nextId) (h2 : a.queues = b.queues) : a = b := by
  cases a; cases b; cases h1; cases h2; rfl

theorem sendAll_nextId {T : Type} (vs : List T) (st : ChannelState T) :
    (sendAll st vs).nextId = st.nextId := by
  induction vs generalizing st with
  | nil => rfl
  | cons v vs ih => exact (ih (Sender.send st v).1).trans rfl

/-- Full-state form of `sendAll_queues`. -/
theorem sendAll_eq {T : Type} (vs : List T) (st : ChannelState T)
    (h : Consistent st) :
    sendAll st vs =
      ⟨st.nextId, st.queues.map (fun p => (p.1, deliverMany vs p.2))⟩ :=
  ChannelState.ext' (sendAll_nextId vs st) (sendAll_queues vs st h)

theorem Consistent_new {T : Type} : Consistent ((new : ChannelState T × Nat)).1 := by
  intro p hp
  simp only [new, List.mem_singleton] at hp
  subst hp
  intro _
  rfl

/-! ## C1: fan-out duplication with subscription timing -/

/-- C1: for `(s, r) = new()` and `r2 = r.clone()`, every send performed after
the clone delivers its value to both `r` and `r2` (each queue holds its own
copy), and `r2` receives no value that was sent before the clone: after
sends `pre`, then the clone, then sends `post`, the original receiver's queue
holds `pre ++ post` and the clone's queue holds exactly `post`; the two
receivers are distinct subscribers. -/
theorem C1_fanout_duplication {T : Type} (pre post : List T) :
    (sendAll (Receiver.clone (sendAll (new (T := T)).1 pre)).1 post).bufOf
        (new (T := T)).2 = pre ++ post ∧
    (sendAll (Receiver.clone (sendAll (new (T := T)).1 pre)).1 post).bufOf
        (Receiver.clone (sendAll (new (T := T)).1 pre)).2 = post ∧
    (new (T := T)).2 ≠ (Receiver.clone (sendAll (new (T := T)).1 pre)).2 := by
  have hA : sendAll (new (T := T)).1 pre = ⟨1, [(0, ⟨pre, true, true⟩)]⟩ := by
    rw [sendAll_eq pre _ Consistent_new]
    simp [new, deliverMany_true]
  have hc1 : Consistent (⟨2, [(0, (⟨pre, true, true⟩ : MpscQueue T)),
      (1, ⟨[], true, true⟩)]⟩ : ChannelState T) := by
    intro p hp
    simp only [List.mem_cons, List.not_mem_nil, or_false] at hp
    rcases hp with rfl | rfl
    · intro _; rfl
    · intro _; rfl
  have hD : sendAll (⟨2, [(0, (⟨pre, true, true⟩ : MpscQueue T)),
        (1, ⟨[], true, true⟩)]⟩ : ChannelState T) post =
      ⟨2, [(0, ⟨pre ++ post, true, true⟩), (1, ⟨post, true, true⟩)]⟩ := by
    rw [sendAll_eq post _ hc1]
    simp [deliverMany_true]
  rw [hA]
  refine ⟨?_, ?_, ?_⟩
  · show (sendAll (⟨2, [(0, ⟨pre, true, true⟩),
        (1, ⟨[], true, true⟩)]⟩ : ChannelState T) post).bufOf 0 = pre ++ post
    rw [hD]
    rfl
  · show (sendAll (⟨2, [(0, ⟨pre, true, true⟩),
        (1, ⟨[], true, true⟩)]⟩ : ChannelState T) post).bufOf 1 = post
    rw [hD]
    rfl
  · show (0 : Nat) ≠ 1
    decide

/-! ## C2: post-drop exclusion -/

/-- C2: with `(s, r) = new()` and `r2 = r.clone()`, if `r2` is destroyed
before `send(v)`, the send returns `Ok(())`, the surviving receiver's queue
holds exactly `v`, and the destroyed receiver's queue is left untouched and
empty: no delivery is attempted to it. -/
theorem C2_post_drop_exclusion {T : Type} (v : T) :
    (Sender.send (Receiver.drop (Receiver.clone (new (T := T)).1).1
        (Receiver.clone (new (T := T)).1).2) v).2 = none ∧
    (Sender.send (Receiver.drop (Receiver.clone (new (T := T)).1).1
        (Receiver.clone (new (T := T)).1).2) v).1.bufOf (new (T := T)).2 = [v] ∧
    (Sender.send (Receiver.drop (Receiver.clone (new (T := T)).1).1
        (Receiver.clone (new (T := T)).1).2) v).1.queues.lookup
        (Receiver.clone (new (T := T)).1).2 =
      (Receiver.drop (Receiver.clone (new (T := T)).1).1
        (Receiver.clone (new (T := T)).1).2).queues.lookup
        (Receiver.clone (new (T := T)).1).2 ∧
    (Receiver.drop (Receiver.clone (new (T := T)).1).1
        (Receiver.clone (new (T := T)).1).2).registryKeys = [(new (T := T)).2] :=
  ⟨rfl, rfl, rfl, rfl⟩

/-! ## C9: sending into an empty registry succeeds silently -/

theorem broadcast_skip_all {T : Type} (entries : List (Nat × MpscQueue T))
    (v : T) (h : ∀ p ∈ entries, p.2.producerAlive = false) :
    broadcast entries v = (entries, none) := by
  induction entries with
  | nil => rfl
  | cons p rest ih =>
    obtain ⟨i, q⟩ := p
    have hp : q.producerAlive = false := h (i, q) (by simp)
    simp [broadcast, hp, ih (fun p hm => h p (List.mem_cons_of_mem _ hm))]

/-- C9: when the registry holds no subscriber at all, `send(v)` returns
`Ok(())` and the channel state is unchanged: the value is discarded without
delivery and without error. -/
theorem C9_send_empty_registry {T : Type} (st : ChannelState T) (v : T)
    (h : st.registryKeys = []) : Sender.send st v = (st, none) := by
  have hall : ∀ p ∈ st.queues, p.2.producerAlive = false := by
    intro p hp
    have := List.filter_eq_nil_iff.1 (List.map_eq_nil_iff.1 h) p hp
    simpa using this
  simp [Sender.send, broadcast_skip_all st.queues v hall]

theorem C9_send_empty_registry_witness :
    (⟨1, [(0, ⟨[], false, false⟩)]⟩ : ChannelState Nat).registryKeys = [] ∧
    Sender.send (⟨1, [(0, ⟨[], false, false⟩)]⟩ : ChannelState Nat) 5 =
      (⟨1, [(0, ⟨[], false, false⟩)]⟩, none) :=
  ⟨rfl, C9_send_empty_registry _ 5 rfl⟩

/-! ## C3: broadcast aborts on the first failing push -/

/-- When the entry list splits as `pre ++ (i, q) :: post`, every registered
entry of `pre` has a live consumer, and `q` is registered but its consumer end
is gone, the broadcast loop pushes into the queues of `pre`, fails at `(i, q)`
returning `SendError(v)`, and leaves `(i, q)` and all of `post` untouched. -/
theorem broadcast_abort {T : Type} (pre post : List (Nat × MpscQueue T))
    (i : Nat) (q : MpscQueue T) (v : T)
    (hpre : ∀ p ∈ pre, p.2.producerAlive = true → p.2.consumerAlive = true)
    (hq : q.producerAlive = true) (hqc : q.consumerAlive = false) :
    broadcast (pre ++ (i, q) :: post) v =
      (pre.map (fun p => (p.1, deliver v p.2)) ++ (i, q) :: post, some v) := by
  induction pre with
  | nil => simp [broadcast, hq, MpscQueue.push, hqc]
  | cons p rest ih =>
    obtain ⟨j, qj⟩ := p
    by_cases hp : qj.producerAlive
    · have hc : qj.consumerAlive = true := hpre (j, qj) (by simp) hp
      simp [broadcast, hp, MpscQueue.push, hc, deliver,
        ih (fun p hm => hpre p (List.mem_cons_of_mem _ hm))]
    · simp [broadcast, hp, deliver,
        ih (fun p hm => hpre p (List.mem_cons_of_mem _ hm))]

/-- C3: during a send, if pushing into some subscriber's queue fails, `send`
returns that `SendError` immediately; subscribers not yet visited in the
iteration (the failing one and everything after it) keep their queues exactly
as they were — no delivery is attempted there and nothing is retried. -/
theorem C3_abort_early {T : Type} (st : ChannelState T)
    (pre post : List (Nat × MpscQueue T)) (i : Nat) (q : MpscQueue T) (v : T)
    (hsplit : st.queues = pre ++ (i, q) :: post)
    (hpre : ∀ p ∈ pre, p.2.producerAlive = true → p.2.consumerAlive = true)
    (hq : q.producerAlive = true) (hqc : q.consumerAlive = false) :
    Sender.send st v =
      (⟨st.nextId, pre.map (fun p => (p.1, deliver v p.2)) ++ (i, q) :: post⟩,
        some v) := by
  simp [Sender.send, hsplit, broadcast_abort pre post i q v hpre hq hqc]

theorem C3_abort_early_witness :
    Sender.send (⟨3, [(0, ⟨[], true, true⟩), (1, ⟨[], true, false⟩),
        (2, ⟨[], true, true⟩)]⟩ : ChannelState Nat) 7 =
      (⟨3, [(0, ⟨[7], true, true⟩), (1, ⟨[], true, false⟩),
        (2, ⟨[], true, true⟩)]⟩, some 7) :=
  C3_abort_early (⟨3, [(0, ⟨[], true, true⟩), (1, ⟨[], true, false⟩),
      (2, ⟨[], true, true⟩)]⟩ : ChannelState Nat)
    [(0, ⟨[], true, true⟩)] [(2, ⟨[], true, true⟩)] 1 ⟨[], true, false⟩ 7
    rfl (by decide) rfl rfl

/-! ## C10: deliveries made before a failing push are not rolled back -/

/-- C10: a channel state with two subscribers where the later-visited
subscriber's push fails: `send` returns `Err(SendError(5))`, yet the
earlier-visited subscriber's queue has already received the value and keeps
it. -/
theorem C10_no_rollback :
    (Sender.send (⟨2, [(0, ⟨[], true, true⟩), (1, ⟨[], true, false⟩)]⟩ :
        ChannelState Nat) 5).2 = some 5 ∧
    (Sender.send (⟨2, [(0, ⟨[], true, true⟩), (1, ⟨[], true, false⟩)]⟩ :
        ChannelState Nat) 5).1.bufOf 0 = [5] := by
  decide

/-! ## C7: destruction removes exactly the receiver's own entry -/

theorem drop_registryKeys {T : Type} (l : List (Nat × MpscQueue T)) (id : Nat) :
    ((l.map (fun p => if p.1 = id then
        (p.1, { p.2 with producerAlive := false, consumerAlive := false })
        else p)).filter (fun p => p.2.producerAlive)).map Prod.fst =
    ((l.filter (fun p => p.2.producerAlive)).map Prod.fst).filter
      (fun k => k != id) := by
  induction l with
  | nil => rfl
  | cons p rest ih =>
    obtain ⟨i, q⟩ := p
    by_cases hi : i = id
    · subst hi
      by_cases hq : q.producerAlive <;> simp [hq, ih]
    · by_cases hq : q.producerAlive <;> simp [hi, hq, ih]

theorem drop_lookup_other {T : Type} (l : List (Nat × MpscQueue T)) (id j : Nat)
    (hj : j ≠ id) :
    (l.map (fun p => if p.1 = id then
        (p.1, { p.2 with producerAlive := false, consumerAlive := false })
        else p)).lookup j = l.lookup j := by
  induction l with
  | nil => rfl
  | cons p rest ih =>
    obtain ⟨i, q⟩ := p
    rw [List.map_cons]
    simp only []
    by_cases hi : i = id
    · rw [if_pos (show (i, q).1 = id from hi)]
      have hji : (j == i) = false := by
        simp only [beq_eq_false_iff_ne, ne_eq]
        exact fun h => hj (h.trans hi)
      simp [List.lookup, hji, ih]
    · rw [if_neg (show ¬(i, q).1 = id from hi)]
      by_cases hji : j = i
      · subst hji
        simp [List.lookup]
      · have h1 : (j == i) = false := by simp [hji]
        simp [List.lookup, h1, ih]

/-- C7: destroying a Receiver removes exactly its own key from the Registry;
every other subscriber's entry and queue are unchanged; a second destruction
of the same subscriber is a no-op on the state, and deregistering an
identifier with no entry at all leaves the state untouched. -/
theorem C7_drop_frame {T : Type} (st : ChannelState T) (id j : Nat)
    (hj : j ≠ id) :
    (Receiver.drop st id).registryKeys =
      st.registryKeys.filter (fun k => k != id) ∧
    (Receiver.drop st id).queues.lookup j = st.queues.lookup j ∧
    Receiver.drop (Receiver.drop st id) id = Receiver.drop st id ∧
    (id ∉ st.queues.map Prod.fst → Receiver.drop st id = st) := by
  refine ⟨drop_registryKeys st.queues id, drop_lookup_other st.queues id j hj,
    ?_, ?_⟩
  · refine ChannelState.ext' rfl ?_
    show (st.queues.map _).map _ = st.queues.map _
    rw [List.map_map]
    refine List.map_congr_left ?_
    intro p _
    by_cases hi : p.1 = id <;> simp [Function.comp, hi]
  · intro habs
    refine ChannelState.ext' rfl ?_
    show st.queues.map _ = st.queues
    have : ∀ p ∈ st.queues, (if p.1 = id then
        (p.1, { p.2 with producerAlive := false, consumerAlive := false })
        else p) = p := by
      intro p hp
      have : p.1 ≠ id := fun h => habs (h ▸ List.mem_map_of_mem Prod.fst hp)
      simp [this]
    rw [List.map_congr_left this]
    simp

theorem C7_drop_frame_witness :
    (Receiver.drop (⟨2, [(0, (⟨[], true, true⟩ : MpscQueue Nat)),
        (1, ⟨[], true, true⟩)]⟩ : ChannelState Nat) 1).registryKeys =
      (⟨2, [(0, (⟨[], true, true⟩ : MpscQueue Nat)),
        (1, ⟨[], true, true⟩)]⟩ : ChannelState Nat).registryKeys.filter
        (fun k => k != 1) ∧
    (Receiver.drop (⟨2, [(0, (⟨[], true, true⟩ : MpscQueue Nat)),
        (1, ⟨[], true, true⟩)]⟩ : ChannelState Nat) 1).queues.lookup 0 =
      (⟨2, [(0, (⟨[], true, true⟩ : MpscQueue Nat)),
        (1, ⟨[], true, true⟩)]⟩ : ChannelState Nat).queues.lookup 0 ∧
    Receiver.drop (Receiver.drop (⟨2, [(0, (⟨[], true, true⟩ : MpscQueue Nat)),
        (1, ⟨[], true, true⟩)]⟩ : ChannelState Nat) 1) 1 =
      Receiver.drop (⟨2, [(0, (⟨[], true, true⟩ : MpscQueue Nat)),
        (1, ⟨[], true, true⟩)]⟩ : ChannelState Nat) 1 ∧
    (1 ∉ ((⟨2, [(0, (⟨[], true, true⟩ : MpscQueue Nat)),
        (1, ⟨[], true, true⟩)]⟩ : ChannelState Nat)).queues.map Prod.fst →
      Receiver.drop (⟨2, [(0, (⟨[], true, true⟩ : MpscQueue Nat)),
        (1, ⟨[], true, true⟩)]⟩ : ChannelState Nat) 1 =
        ⟨2, [(0, (⟨[], true, true⟩ : MpscQueue Nat)), (1, ⟨[], true, true⟩)]⟩) :=
  C7_drop_frame (⟨2, [(0, (⟨[], true, true⟩ : MpscQueue Nat)),
    (1, ⟨[], true, true⟩)]⟩ : ChannelState Nat) 1 0 (by decide)

/-! ## C8: try_recv error discrimination -/

theorem lookup_map_replace {T : Type} (l : List (Nat × MpscQueue T)) (id : Nat)
    (q' : MpscQueue T) (h : (l.lookup id).isSome) :
    (l.map (fun p => if p.1 = id then (p.1, q') else p)).lookup id = some q' := by
  induction l with
  | nil => simp [List.lookup] at h
  | cons p rest ih =>
    obtain ⟨i, qq⟩ := p
    rw [List.map_cons]
    simp only []
    by_cases hi : i = id
    · rw [if_pos (show (i, qq).1 = id from hi)]
      subst hi
      simp [List.lookup]
    · rw [if_neg (show ¬(i, qq).1 = id from hi)]
      have h1 : (id == i) = false := by simp [Ne.symm hi]
      simp only [List.lookup, h1] at h ⊢
      exact ih h

/-- C8: `try_recv` never blocks (it is a total function of the state); it
returns `Err(Empty)` exactly when the receiver's own queue is empty but its
producer end still exists, `Err(Disconnected)` exactly when the queue is
empty and the producer end is gone, and otherwise `Ok` with the oldest
pending value, which is removed from the queue. -/
theorem C8_try_recv_discrimination {T : Type} (st : ChannelState T) (id : Nat)
    (q : MpscQueue T) (hq : st.queues.lookup id = some q) :
    ((Receiver.try_recv st id).1 = Except.error TryRecvError.Empty ↔
      q.buf = [] ∧ q.producerAlive = true) ∧
    ((Receiver.try_recv st id).1 = Except.error TryRecvError.Disconnected ↔
      q.buf = [] ∧ q.producerAlive = false) ∧
    (∀ v rest, q.buf = v :: rest →
      (Receiver.try_recv st id).1 = Except.ok v ∧
      (Receiver.try_recv st id).2.bufOf id = rest) := by
  have h1 : (Receiver.try_recv st id).1 = q.try_recv.1 := by
    simp [Receiver.try_recv, hq]
  have h2 : (Receiver.try_recv st id).2.bufOf id = q.try_recv.2.buf := by
    simp only [Receiver.try_recv, hq]
    simp only [ChannelState.bufOf]
    rw [lookup_map_replace st.queues id q.try_recv.2 (by rw [hq]; rfl)]
  obtain ⟨buf, pa, ca⟩ := q
  rcases buf with _ | ⟨v0, rest0⟩
  · cases pa
    · have ht : (⟨[], false, ca⟩ : MpscQueue T).try_recv =
          (Except.error TryRecvError.Disconnected, ⟨[], false, ca⟩) := rfl
      rw [ht] at h1
      refine ⟨?_, ?_, ?_⟩
      · simp [h1]
      · simp [h1]
      · intro v rest hvr
        simp at hvr
    · have ht : (⟨[], true, ca⟩ : MpscQueue T).try_recv =
          (Except.error TryRecvError.Empty, ⟨[], true, ca⟩) := rfl
      rw [ht] at h1
      refine ⟨?_, ?_, ?_⟩
      · simp [h1]
      · simp [h1]
      · intro v rest hvr
        simp at hvr
  · have ht : (⟨v0 :: rest0, pa, ca⟩ : MpscQueue T).try_recv =
        (Except.ok v0, ⟨rest0, pa, ca⟩) := rfl
    rw [ht] at h1 h2
    refine ⟨?_, ?_, ?_⟩
    · simp [h1]
    · simp [h1]
    · intro v rest hvr
      simp only [List.cons.injEq] at hvr
      obtain ⟨rfl, rfl⟩ := hvr
      exact ⟨h1, h2⟩

theorem C8_try_recv_discrimination_witness :
    (Receiver.try_recv (⟨1, [(0, ⟨[4, 9], true, true⟩)]⟩ : ChannelState Nat)
      0).1 = Except.ok 4 ∧
    (Receiver.try_recv (⟨1, [(0, ⟨[4, 9], true, true⟩)]⟩ : ChannelState Nat)
      0).2.bufOf 0 = [9] :=
  (C8_try_recv_discrimination (⟨1, [(0, ⟨[4, 9], true, true⟩)]⟩ :
    ChannelState Nat) 0 ⟨[4, 9], true, true⟩ rfl).2.2 4 [9] rfl

/-! ## C4: registry membership invariant -/

/-- Channel-state invariant established by `new` and maintained by every
operation: subscriber ids are pairwise distinct, all below the fresh-id
counter, and each queue's producer end (registry entry) exists exactly while
its owning receiver (consumer end) is alive. -/
def ChanInv {T : Type} (st : ChannelState T) : Prop :=
  (st.queues.map Prod.fst).Nodup ∧
  (∀ p ∈ st.queues, p.1 < st.nextId) ∧
  (∀ p ∈ st.queues, p.2.producerAlive = p.2.consumerAlive)

theorem broadcast_map_fst {T : Type} (l : List (Nat × MpscQueue T)) (v : T) :
    (broadcast l v).1.map Prod.fst = l.map Prod.fst := by
  induction l with
  | nil => rfl
  | cons p rest ih =>
    obtain ⟨i, q⟩ := p
    by_cases hp : q.producerAlive
    · rcases hpush : q.push v with _ | q'
      · simp [broadcast, hp, hpush]
      · simp [broadcast, hp, hpush, ih]
    · simp [broadcast, hp, ih]

theorem broadcast_flags {T : Type} (l : List (Nat × MpscQueue T)) (v : T) :
    ∀ p' ∈ (broadcast l v).1, ∃ p ∈ l, p'.1 = p.1 ∧
      p'.2.producerAlive = p.2.producerAlive ∧
      p'.2.consumerAlive = p.2.consumerAlive := by
  induction l with
  | nil => intro p' hp'; simp [broadcast] at hp'
  | cons p rest ih =>
    obtain ⟨i, q⟩ := p
    intro p' hp'
    by_cases hp : q.producerAlive
    · rcases hpush : q.push v with _ | q'
      · exact ⟨p', by simpa [broadcast, hp, hpush] using hp', rfl, rfl, rfl⟩
      · have hq' : q'.producerAlive = q.producerAlive ∧
            q'.consumerAlive = q.consumerAlive := by
          unfold MpscQueue.push at hpush
          rcases hc : q.consumerAlive with _ | _ <;> rw [hc] at hpush <;>
            simp at hpush
          rw [← hpush]
          exact ⟨rfl, rfl⟩
        rw [show broadcast ((i, q) :: rest) v =
            ((i, q') :: (broadcast rest v).1, (broadcast rest v).2) by
          simp [broadcast, hp, hpush]] at hp'
        rcases List.mem_cons.1 hp' with rfl | hmem
        · exact ⟨(i, q), by simp, rfl, hq'.1, hq'.2⟩
        · obtain ⟨p, hpmem, h⟩ := ih p' hmem
          exact ⟨p, List.mem_cons_of_mem _ hpmem, h⟩
    · rw [show broadcast ((i, q) :: rest) v =
          ((i, q) :: (broadcast rest v).1, (broadcast rest v).2) by
        simp [broadcast, hp]] at hp'
      rcases List.mem_cons.1 hp' with rfl | hmem
      · exact ⟨(i, q), by simp, rfl, rfl, rfl⟩
      · obtain ⟨p, hpmem, h⟩ := ih p' hmem
        exact ⟨p, List.mem_cons_of_mem _ hpmem, h⟩

theorem drop_map_fst {T : Type} (l : List (Nat × MpscQueue T)) (id : Nat) :
    (l.map (fun p => if p.1 = id then
        (p.1, { p.2 with producerAlive := false, consumerAlive := false })
        else p)).map Prod.fst = l.map Prod.fst := by
  rw [List.map_map]
  refine List.map_congr_left ?_
  intro p _
  by_cases hi : p.1 = id <;> simp [Function.comp, hi]

/-- C4: under the invariant, the Registry's key set coincides with the set of
live receivers' identifiers and has no duplicates (each live receiver owns
exactly one entry, no two live receivers share an id); the invariant holds
after `new()` and is preserved by `Receiver::clone`, `Receiver::drop`,
`Sender::clone` and `Sender::send`. -/
theorem C4_registry_membership {T : Type} (st : ChannelState T) (id : Nat)
    (v : T) (h : ChanInv st) :
    st.registryKeys = st.liveReceivers ∧
    st.registryKeys.Nodup ∧
    ChanInv ((new : ChannelState T × Nat)).1 ∧
    ChanInv (Receiver.clone st).1 ∧
    ChanInv (Receiver.drop st id) ∧
    ChanInv (Sender.clone st) ∧
    ChanInv (Sender.send st v).1 := by
  obtain ⟨hnd, hlt, hflag⟩ := h
  refine ⟨?_, ?_, ?_, ?_, ?_, ?_, ?_⟩
  · unfold ChannelState.registryKeys ChannelState.liveReceivers
    congr 1
    exact List.filter_congr (fun p hp => by rw [hflag p hp])
  · exact ((List.filter_sublist _).map Prod.fst).nodup hnd
  · refine ⟨by simp [new], ?_, ?_⟩
    · intro p hp
      simp only [new, List.mem_singleton] at hp
      subst hp
      exact Nat.zero_lt_one
    · intro p hp
      simp only [new, List.mem_singleton] at hp
      subst hp
      rfl
  · refine ⟨?_, ?_, ?_⟩
    · simp only [Receiver.clone, List.map_append, List.map_cons, List.map_nil]
      rw [List.nodup_append]
      refine ⟨hnd, List.nodup_singleton _, ?_⟩
      intro a ha hb
      simp only [List.mem_singleton] at hb
      subst hb
      obtain ⟨p, hp, hpe⟩ := List.mem_map.1 ha
      have := hlt p hp
      rw [hpe] at this
      exact lt_irrefl _ this
    · intro p hp
      rcases List.mem_append.1 hp with hp | hp
      · exact Nat.lt_succ_of_lt (hlt p hp)
      · rw [List.mem_singleton.1 hp]
        exact Nat.lt_succ_self _
    · intro p hp
      rcases List.mem_append.1 hp with hp | hp
      · exact hflag p hp
      · rw [List.mem_singleton.1 hp]
  · refine ⟨?_, ?_, ?_⟩
    · simp only [Receiver.drop]
      rw [drop_map_fst]
      exact hnd
    · intro p hp
      simp only [Receiver.drop, List.mem_map] at hp
      obtain ⟨p0, hp0, rfl⟩ := hp
      show (if p0.1 = id
          then (p0.1, (⟨p0.2.buf, false, false⟩ : MpscQueue T))
          else p0).1 < st.nextId
      by_cases hi : p0.1 = id
      · rw [if_pos hi]
        exact hlt p0 hp0
      · rw [if_neg hi]
        exact hlt p0 hp0
    · intro p hp
      simp only [Receiver.drop, List.mem_map] at hp
      obtain ⟨p0, hp0, rfl⟩ := hp
      show (if p0.1 = id
          then (p0.1, (⟨p0.2.buf, false, false⟩ : MpscQueue T))
          else p0).2.producerAlive =
        (if p0.1 = id
          then (p0.1, (⟨p0.2.buf, false, false⟩ : MpscQueue T))
          else p0).2.consumerAlive
      by_cases hi : p0.1 = id
      · rw [if_pos hi]
      · rw [if_neg hi]
        exact hflag p0 hp0
  · exact ⟨hnd, hlt, hflag⟩
  · refine ⟨?_, ?_, ?_⟩
    · simp only [Sender.send]
      rw [broadcast_map_fst]
      exact hnd
    · intro p hp
      simp only [Sender.send] at hp
      obtain ⟨p0, hp0, hfst, _, _⟩ := broadcast_flags st.queues v p hp
      rw [hfst]
      exact hlt p0 hp0
    · intro p hp
      simp only [Sender.send] at hp
      obtain ⟨p0, hp0, _, hpa, hca⟩ := broadcast_flags st.queues v p hp
      rw [hpa, hca]
      exact hflag p0 hp0

theorem C4_registry_membership_witness :
    ((new : ChannelState Nat × Nat)).1.registryKeys =
      ((new : ChannelState Nat × Nat)).1.liveReceivers :=
  (C4_registry_membership ((new : ChannelState Nat × Nat)).1 0 3
    ⟨by decide, by decide, by decide⟩).1

/-! ## C5: per-subscriber FIFO order -/

theorem lookup_map_snd {T : Type} (g : MpscQueue T → MpscQueue T)
    (l : List (Nat × MpscQueue T)) (a : Nat) :
    (l.map (fun p => (p.1, g p.2))).lookup a = (l.lookup a).map g := by
  induction l with
  | nil => rfl
  | cons p rest ih =>
    obtain ⟨i, q⟩ := p
    rcases hb : (a == i) with _ | _ <;> simp [List.lookup, hb, ih]

/-- Repeatedly calling `try_recv` returns the queue's buffer in FIFO order:
the first `n` observations are exactly the first `n` buffered values. -/
theorem drainN_buf {T : Type} (n : Nat) (q : MpscQueue T) :
    drainN n q = q.buf.take n := by
  induction n generalizing q with
  | zero => simp [drainN]
  | succ n ih =>
    obtain ⟨buf, pa, ca⟩ := q
    rcases buf with _ | ⟨v, rest⟩
    · cases pa <;> simp [drainN, MpscQueue.try_recv]
    · simp [drainN, MpscQueue.try_recv, ih]

/-- C5: the sends `vs` (serialized by the registry lock, in the order the
lock was acquired) reach a registered, live subscriber's queue appended after
its old buffer and in exactly that order, and draining the queue through
`try_recv` observes them in the same relative order. -/
theorem C5_fifo_per_subscriber {T : Type} (st : ChannelState T) (id : Nat)
    (q : MpscQueue T) (vs : List T) (h : Consistent st)
    (hq : st.queues.lookup id = some q) (hpa : q.producerAlive = true) :
    (sendAll st vs).queues.lookup id = some (deliverMany vs q) ∧
    (deliverMany vs q).buf = q.buf ++ vs ∧
    (∀ n, drainN n (deliverMany vs q) = (q.buf ++ vs).take n) := by
  have hbuf : deliverMany vs q = ⟨q.buf ++ vs, q.producerAlive, q.consumerAlive⟩ := by
    obtain ⟨buf, pa, ca⟩ := q
    cases hpa
    exact deliverMany_true vs buf ca
  refine ⟨?_, ?_, ?_⟩
  · rw [sendAll_eq vs st h]
    show (st.queues.map (fun p => (p.1, deliverMany vs p.2))).lookup id = _
    rw [lookup_map_snd (deliverMany vs) st.queues id, hq]
    rfl
  · rw [hbuf]
  · intro n
    rw [drainN_buf n (deliverMany vs q), hbuf]

theorem C5_fifo_per_subscriber_witness :
    (deliverMany [1, 2, 3] (⟨[], true, true⟩ : MpscQueue Nat)).buf =
      [] ++ [1, 2, 3] :=
  (C5_fifo_per_subscriber ((new : ChannelState Nat × Nat)).1 0
    ⟨[], true, true⟩ [1, 2, 3] Consistent_new rfl rfl).2.1

/-! ## C6: new() makes a fresh, fully independent channel -/

/-- Collection of the channel states created by independent `new()` calls:
each call's state is a separate entry, none shared. -/
abbrev World (T : Type) : Type := List (ChannelState T)

/-- One more `new()` call: appends a brand-new channel state. -/
def newW {T : Type} (w : World T) : World T :=
  w ++ [((new : ChannelState T × Nat)).1]

/-- A `send` on the `i`-th channel of the collection: only that channel's
shared registry is involved. -/
def sendW {T : Type} (w : World T) (i : Nat) (v : T) : World T :=
  match w.get? i with
  | some st => w.set i (Sender.send st v).1
  | none => w

/-- C6: `new()` constructs a channel whose registry holds exactly one
subscriber — the returned receiver, keying the single entry — and each call
creates fully independent state: constructing a new channel leaves every
existing channel untouched, and a send on one channel leaves every other
channel's state (hence its queues) unchanged. -/
theorem C6_fresh_independent_channel {T : Type} (w : World T) (i j : Nat)
    (v : T) (hij : j ≠ i) :
    ((new : ChannelState T × Nat)).1.registryKeys =
      [((new : ChannelState T × Nat)).2] ∧
    ((new : ChannelState T × Nat)).1.liveReceivers =
      [((new : ChannelState T × Nat)).2] ∧
    (newW w).take w.length = w ∧
    (sendW w i v)[j]? = w[j]? := by
  refine ⟨rfl, rfl, ?_, ?_⟩
  · unfold newW
    exact List.take_left w _
  · unfold sendW
    rcases hw : w.get? i with _ | st
    · rfl
    · exact List.getElem?_set_ne (Ne.symm hij)

theorem C6_fresh_independent_channel_witness :
    (sendW [((new : ChannelState Nat × Nat)).1] 0 2)[1]? =
      [((new : ChannelState Nat × Nat)).1][1]? :=
  (C6_fresh_independent_channel [((new : ChannelState Nat × Nat)).1] 0 1 2
    (by decide)).2.2.2
